import Mathlib

/-!
# Verification of the LRU cache in `src/cache.rs` (leveldb-rs)

Shallow embedding of the intrusive doubly-linked LRU list (`LRUList`) and the
capacity-bounded cache (`Cache`) from `src/cache.rs`.

Modelling decisions:

* The Rust code manipulates heap nodes through `Box<LRUNode<T>>` (owning
  forward links) and raw `*mut LRUNode<T>` pointers (non-owning backward
  links).  We model the heap explicitly as a list of nodes indexed by address:
  the sentinel head node lives at address `0`, and every allocation appends a
  node at a fresh address (addresses are never reused).  Dropping a `Box`
  deallocates in Rust; in the model the cell simply keeps its last written
  value.  This is a deterministic concretization: reads through dangling
  pointers (which the source performs in some reachable states, e.g. through
  `head.prev` after removing the tail node) see the node's final state
  instead of being undefined behaviour.
* `Option` forward links (`next`) and raw-pointer backward links (`prev`) both
  become `Option Nat` (an address).
* Every operation that can `panic!`, fail an `assert!`, or `unwrap()` a `None`
  returns an `Option`; `none` means the process aborts.  `mem::swap` through
  two possibly-aliased raw pointers is modelled by reading both fields first
  and then writing both, which is value-preserving also in the aliased case.
* `usize` arithmetic: `count` is a `Nat`; the `self.count -= 1` statements use
  truncated subtraction (the source would underflow-wrap or debug-panic, but
  no claim depends on states where `count` is 0 while a node is removed).
* The `HashMap<CacheKey, CacheEntry<T>>` is modelled as an association list
  with the observable semantics of a hash map: lookup by key, insert replaces
  any existing binding for the key, remove deletes the binding.  Keys
  (`CacheKey = Vec<u8>`) become `List Nat`.
-/

set_option autoImplicit false
set_option linter.unnecessarySimpa false

namespace LevelDB

/-- One list node: `struct LRUNode<T> { next, prev, data }` from the source.
`next: Option<Box<LRUNode<T>>>` and `prev: Option<*mut LRUNode<T>>` are both
addresses into the explicit heap; `data: Option<T>` is `none` exactly for the
sentinel head node (and for nodes whose payload was taken on removal). -/
structure LRUNode (K : Type) where
  next : Option Nat
  prev : Option Nat
  data : Option K
  deriving DecidableEq

/-- The node heap: addresses are indices into a list of nodes; allocation
appends (addresses are never reused). -/
abbrev Heap (K : Type) := List (LRUNode K)

variable {K : Type}

/-- Read the heap cell at address `a`; unallocated addresses read as an empty
node (deterministic junk, standing in for what is undefined behaviour in the
source). -/
def Heap.read (hp : Heap K) (a : Nat) : LRUNode K :=
  List.getD hp a { next := none, prev := none, data := none }

/-- Write the heap cell at address `a` (no effect out of bounds; all writes the
source performs on reachable states are to allocated cells). -/
def Heap.write (hp : Heap K) (a : Nat) (n : LRUNode K) : Heap K :=
  List.set hp a n

/-- Allocate a fresh cell (`Box::new`); its address is the current length. -/
def Heap.alloc (hp : Heap K) (n : LRUNode K) : Heap K :=
  hp ++ [n]

/-- `mem::swap` of the `next` fields of the nodes at `a` and `b`
(value-preserving also when `a = b`, matching the raw-pointer swap). -/
def Heap.swapNext (hp : Heap K) (a b : Nat) : Heap K :=
  let x := (hp.read a).next
  let y := (hp.read b).next
  let h1 := hp.write a { hp.read a with next := y }
  h1.write b { h1.read b with next := x }

/-- `mem::swap` of the `prev` fields of the nodes at `a` and `b`. -/
def Heap.swapPrev (hp : Heap K) (a b : Nat) : Heap K :=
  let x := (hp.read a).prev
  let y := (hp.read b).prev
  let h1 := hp.write a { hp.read a with prev := y }
  h1.write b { h1.read b with prev := x }

/-- `struct LRUList<T> { head, count }`.  The head sentinel is the node at
address `0` of `heap` (allocated by `new`); a fresh allocation gets address
`heap.length`; `count` is the source's explicit element counter. -/
structure LRUList (K : Type) where
  heap : Heap K
  count : Nat
  deriving DecidableEq

namespace LRUList

variable {K : Type}

/-- `LRUList::new()`: only the empty sentinel head node exists. -/
def new : LRUList K :=
  { heap := [{ next := none, prev := none, data := none }], count := 0 }

/-- `LRUList::insert(elem) -> LRUHandle<T>`: allocates a new node holding
`elem` and links it directly behind the head sentinel (the front).  Returns
the new list together with the handle (address) of the new node.  Mirrors the
source's two branches on `self.head.next.is_some()`. -/
def insert (l : LRUList K) (elem : K) : LRUList K × Nat :=
  match (l.heap.read 0).next with
  | some oldfront =>
      -- self.head.next.as_mut().unwrap().prev = Some(newp);
      let newp := l.heap.length
      let h1 := l.heap.write oldfront { l.heap.read oldfront with prev := some newp }
      -- new.next = replace(&mut self.head.next, None);
      let h2 := h1.alloc { next := (h1.read 0).next, prev := some 0, data := some elem }
      -- self.head.next = Some(new);
      let h3 := h2.write 0 { h2.read 0 with next := some newp }
      ({ heap := h3, count := l.count + 1 }, newp)
  | none =>
      -- First node; the only node right now is an empty head node.
      let newp := l.heap.length
      let h1 := l.heap.alloc { next := none, prev := some 0, data := some elem }
      -- self.head.prev = Some(newp); self.head.next = Some(new);
      let h2 := h1.write 0 { h1.read 0 with next := some newp, prev := some newp }
      ({ heap := h2, count := l.count + 1 }, newp)

/-- `LRUList::remove_last() -> Option<T>`: unlinks and returns the back
element, `none` (inner) if the list is empty.  The outer `Option` is `none`
iff the source would panic (the `.prev.unwrap()` on the node the tail pointer
designates). -/
def remove_last (l : LRUList K) : Option (LRUList K × Option K) :=
  match (l.heap.read 0).prev with
  | none => some (l, none)
  | some tailp =>
      match (l.heap.read tailp).prev with
      | none => none  -- .unwrap() of (*head.prev).prev: panic
      | some pp =>
          -- lasto = replace(&mut (*pp).next, None);
          let lasto := (l.heap.read pp).next
          let h1 := l.heap.write pp { l.heap.read pp with next := none }
          match lasto with
          | some lastA =>
              -- self.head.prev = last.prev;
              let h2 := h1.write 0 { h1.read 0 with prev := (h1.read lastA).prev }
              -- return replace(&mut (*last).data, None);
              let d := (h1.read lastA).data
              let h3 := h2.write lastA { h2.read lastA with data := none }
              some ({ heap := h3, count := l.count - 1 }, d)
          | none => some ({ heap := h1, count := l.count }, none)

/-- `LRUList::remove(node_handle) -> T`: unlinks the node at address `h` and
returns its payload.  `none` iff the source would panic (the final
`.unwrap()` when the node's payload is already gone). -/
def remove (l : LRUList K) (h : Nat) : Option (LRUList K × K) :=
  -- if let Some(ref mut nextp) = (*node_handle).next { swap((**nextp).prev, (*node_handle).prev) }
  let h1 :=
    match (l.heap.read h).next with
    | some nextA => l.heap.swapPrev nextA h
    | none => l.heap
  -- if let Some(ref mut prevp) = (*node_handle).prev { swap((**prevp).next, (*node_handle).next) }
  let h2 :=
    match (h1.read h).prev with
    | some prevA => h1.swapNext prevA h
    | none => h1
  match (h2.read h).data with
  | none => none  -- replace(data, None).unwrap(): panic
  | some d =>
      some ({ heap := h2.write h { h2.read h with data := none }, count := l.count - 1 }, d)

/-- `LRUList::reinsert_front(node_handle)`: unlinks the node at address `h`
and relinks it at the front.  `none` iff the source would panic: the initial
`.prev.unwrap()`, or one of the two trailing `assert!`s. -/
def reinsert_front (l : LRUList K) (h : Nat) : Option (LRUList K) :=
  match (l.heap.read h).prev with
  | none => none  -- (*node_handle).prev.unwrap(): panic
  | some prevp =>
      -- if Some(next) = (*node_handle).next { next.prev = Some(prevp) }
      -- else { self.head.prev = Some(prevp) }
      let h1 :=
        match (l.heap.read h).next with
        | some nextA => l.heap.write nextA { l.heap.read nextA with prev := some prevp }
        | none => l.heap.write 0 { l.heap.read 0 with prev := some prevp }
      -- swap(&mut (*prevp).next, &mut (*node_handle).next);
      let h2 := h1.swapNext prevp h
      -- swap(&mut (*node_handle).next, &mut self.head.next);
      let h3 := h2.swapNext h 0
      -- if Some(newnext) = (*node_handle).next { this.prev = newnext.prev; newnext.prev = Some(h) }
      -- else { self.head.prev = Some(h) }
      let h4 :=
        match (h3.read h).next with
        | some newnextA =>
            let ha := h3.write h { h3.read h with prev := (h3.read newnextA).prev }
            ha.write newnextA { ha.read newnextA with prev := some h }
        | none => h3.write 0 { h3.read 0 with prev := some h }
      -- assert!(self.head.next.is_some()); assert!(self.head.prev.is_some());
      if (h4.read 0).next.isSome ∧ (h4.read 0).prev.isSome then
        some { heap := h4, count := l.count }
      else none

/-- `LRUList::count()`. -/
def lcount (l : LRUList K) : Nat := l.count

/-- `LRUList::_testing_head_ref()`: payload of the front node, if any. -/
def testing_head_ref (l : LRUList K) : Option K :=
  match (l.heap.read 0).next with
  | some first => (l.heap.read first).data
  | none => none

end LRUList

/-- `pub type CacheKey = Vec<u8>;` -/
abbrev CacheKey := List Nat

/-- `type CacheEntry<T> = (T, LRUHandle<CacheKey>);` -/
abbrev CacheEntry (T : Type) := T × Nat

/-- `HashMap::get`: the value bound to `k`, if any. -/
def mapGet {T : Type} (m : List (CacheKey × CacheEntry T)) (k : CacheKey) :
    Option (CacheEntry T) :=
  (m.find? (fun p => p.1 = k)).map (·.2)

/-- `HashMap::insert`: bind `k` to `e`, replacing any existing binding. -/
def mapInsert {T : Type} (m : List (CacheKey × CacheEntry T)) (k : CacheKey)
    (e : CacheEntry T) : List (CacheKey × CacheEntry T) :=
  m.filter (fun p => p.1 ≠ k) ++ [(k, e)]

/-- `HashMap::remove`: the removed binding (if any) and the remaining map. -/
def mapRemove {T : Type} (m : List (CacheKey × CacheEntry T)) (k : CacheKey) :
    Option (CacheEntry T) × List (CacheKey × CacheEntry T) :=
  (mapGet m k, m.filter (fun p => p.1 ≠ k))

/-- `pub struct Cache<T> { list, map, cap }`. -/
structure Cache (T : Type) where
  list : LRUList CacheKey
  map : List (CacheKey × CacheEntry T)
  cap : Nat
  deriving DecidableEq

namespace Cache

variable {T : Type}

/-- `Cache::new(capacity)`: `assert!(capacity > 0)`, so `none` (panic) iff the
capacity is zero. -/
def new (capacity : Nat) : Option (Cache T) :=
  if capacity > 0 then
    some { list := LRUList.new, map := [], cap := capacity }
  else none

/-- `Cache::count()`. -/
def count (c : Cache T) : Nat := c.list.lcount

/-- `Cache::cap()`. -/
def capacity (c : Cache T) : Nat := c.cap

/-- `Cache::insert(key, elem)`.  If the list count has reached the capacity,
first evict: pop the back of the list and remove that key from the map,
asserting the removal succeeds.  Then push a fresh node for `key` and store
`(elem, handle)` in the map.  `none` iff any panic/assert fires. -/
def insert (c : Cache T) (key : CacheKey) (elem : T) : Option (Cache T) :=
  let step1 : Option (LRUList CacheKey × List (CacheKey × CacheEntry T)) :=
    if c.list.lcount ≥ c.cap then
      match c.list.remove_last with
      | none => none  -- panic inside remove_last
      | some (l', some removed_key) =>
          -- assert!(self.map.remove(&removed_key).is_some());
          match mapRemove c.map removed_key with
          | (some _, m') => some (l', m')
          | (none, _) => none  -- assert! fails
      | some (_, none) => none  -- panic!("could not remove_last(); bug!")
    else some (c.list, c.map)
  match step1 with
  | none => none
  | some (l1, m1) =>
      let (l2, lru_handle) := l1.insert key
      some { list := l2, map := mapInsert m1 key (elem, lru_handle), cap := c.cap }

/-- `Cache::get(key) -> Option<&T>`: on a hit, promote the key's node to the
front and return the stored value; on a miss return `none` (inner).  The
outer `Option` is `none` iff `reinsert_front` panics. -/
def get (c : Cache T) (key : CacheKey) : Option (Cache T × Option T) :=
  match mapGet c.map key with
  | none => some (c, none)
  | some (elem, lru_handle) =>
      match c.list.reinsert_front lru_handle with
      | none => none
      | some l' => some ({ c with list := l' }, some elem)

/-- `Cache::remove(key) -> Option<T>`: remove the map binding and unlink the
corresponding list node.  The outer `Option` is `none` iff `LRUList::remove`
panics. -/
def remove (c : Cache T) (key : CacheKey) : Option (Cache T × Option T) :=
  match mapRemove c.map key with
  | (none, _) => some (c, none)
  | (some (elem, lru_handle), m') =>
      match c.list.remove lru_handle with
      | none => none
      | some (l', _) => some ({ list := l', map := m', cap := c.cap }, some elem)

end Cache

/-- Run a sequence of `Cache::insert` calls, propagating panics. -/
def insertSeq {T : Type} (c : Cache T) : List (CacheKey × T) → Option (Cache T)
  | [] => some c
  | (k, v) :: rest =>
      match c.insert k v with
      | none => none
      | some c' => insertSeq c' rest

/-! ## Concrete scenario definitions (from the source's own unit tests and
the spec's scenarios) -/

/-- Insert the given values into a fresh recency list, in order. -/
def listOfNats (xs : List Nat) : LRUList Nat :=
  xs.foldl (fun l x => (l.insert x).1) LRUList.new

/-- Call `reinsert_front` on each handle in turn, recording the front payload
after each promotion (`none` when a promotion panics). -/
def promoteTrace (l : LRUList Nat) : List Nat → Option (List (Option Nat))
  | [] => some []
  | h :: rest =>
      match l.reinsert_front h with
      | none => none
      | some l' =>
          match promoteTrace l' rest with
          | none => none
          | some out => some (l'.testing_head_ref :: out)

/-- A recency list holding exactly one element (its handle is `1`). -/
def soleList : LRUList Nat := (LRUList.new.insert 42).1

/-! ### Specification state for distinct-key insert sequences (claim C2)

After inserting `m` distinct keys into a fresh cache of capacity `C > 0`,
the heap consists of the sentinel at address 0 and one node per insert at
addresses `1..m`; with `s = m - min m C` keys already evicted, the live
nodes are `s+1..m` (front = `m`), and the map holds exactly the keys of
positions `s..m-1`, each paired with its node address. -/

/-- Tag the entries of a key/value list with their node addresses, starting
at address `i + 1`. -/
def tagFrom {T : Type} (i : Nat) : List (CacheKey × T) → List (CacheKey × CacheEntry T)
  | [] => []
  | (k, v) :: rest => (k, (v, i + 1)) :: tagFrom (i + 1) rest

/-- The heap shape after inserting the keys of `kvs` in order with the first
`s` of them already evicted: sentinel links, and for every live node `j`
(`s+1 ≤ j ≤ kvs.length`) its links and payload. -/
def ListShape {T : Type} (s : Nat) (kvs : List (CacheKey × T)) (hp : Heap CacheKey) : Prop :=
  hp.length = kvs.length + 1
  ∧ (hp.read 0).next = (if kvs.length = 0 then none else some kvs.length)
  ∧ (hp.read 0).prev = (if kvs.length = 0 then none else some (s + 1))
  ∧ ∀ j : Nat, s + 1 ≤ j → j ≤ kvs.length →
      (hp.read j).next = (if j = s + 1 then none else some (j - 1))
      ∧ (hp.read j).prev = (if j = kvs.length then some 0 else some (j + 1))
      ∧ (hp.read j).data = (kvs[j-1]?).map Prod.fst

/-- Full cache invariant for a distinct-key insert sequence `kvs` against a
capacity `C`. -/
def Inv {T : Type} (C : Nat) (kvs : List (CacheKey × T)) (st : Cache T) : Prop :=
  st.cap = C
  ∧ st.list.count = min kvs.length C
  ∧ st.map = tagFrom (kvs.length - min kvs.length C)
      (kvs.drop (kvs.length - min kvs.length C))
  ∧ ListShape (kvs.length - min kvs.length C) kvs st.list.heap

/-- A small reachable cache (capacity 3, two live keys) used to witness the
hypothesis-bearing claim theorems. -/
def cacheTwo : Cache Nat :=
  ((Cache.new 3).bind (fun c => insertSeq c [([1], 10), ([2], 20)])).getD
    { list := LRUList.new, map := [], cap := 1 }

/-- A fresh cache of capacity 3. -/
def cacheW : Cache Nat := { list := LRUList.new, map := [], cap := 3 }

end LevelDB

/-! ## Basic heap and map lemmas -/

namespace LevelDB

variable {K : Type} {T : Type}

theorem Heap.length_write (hp : Heap K) (a : Nat) (n : LRUNode K) :
    (hp.write a n).length = hp.length := by
  simp [Heap.write]

theorem Heap.length_alloc (hp : Heap K) (n : LRUNode K) :
    (hp.alloc n).length = hp.length + 1 := by
  simp [Heap.alloc]

theorem Heap.read_write (hp : Heap K) (a : Nat) (n : LRUNode K) (x : Nat) :
    (hp.write a n).read x = if x = a ∧ a < hp.length then n else hp.read x := by
  unfold Heap.write Heap.read
  rw [List.getD_eq_getElem?_getD, List.getD_eq_getElem?_getD, List.getElem?_set]
  by_cases hx : x = a
  · subst hx
    by_cases hlt : x < hp.length
    · simp [hlt]
    · rw [List.getElem?_eq_none (by omega)]
      simp [hlt]
  · rw [if_neg (fun h => hx h.symm)]
    simp [hx]

theorem Heap.read_alloc (hp : Heap K) (n : LRUNode K) (x : Nat) :
    (hp.alloc n).read x = if x = hp.length then n else hp.read x := by
  unfold Heap.alloc Heap.read
  rw [List.getD_eq_getElem?_getD, List.getD_eq_getElem?_getD]
  by_cases hx : x = hp.length
  · subst hx
    rw [List.getElem?_append_right (Nat.le_refl _)]
    simp
  · rcases Nat.lt_or_ge x hp.length with hlt | hge
    · rw [List.getElem?_append_left hlt]
      simp [hx]
    · rw [List.getElem?_append_right hge, List.getElem?_eq_none hge]
      have : (1 : Nat) ≤ x - hp.length := by omega
      rw [List.getElem?_eq_none (by simpa using this)]
      simp [hx]

theorem Heap.length_swapNext (hp : Heap K) (a b : Nat) :
    (hp.swapNext a b).length = hp.length := by
  simp [Heap.swapNext, Heap.length_write]

theorem Heap.length_swapPrev (hp : Heap K) (a b : Nat) :
    (hp.swapPrev a b).length = hp.length := by
  simp [Heap.swapPrev, Heap.length_write]

theorem Heap.data_swapNext (hp : Heap K) (a b x : Nat) :
    ((hp.swapNext a b).read x).data = (hp.read x).data := by
  simp only [Heap.swapNext, Heap.read_write, Heap.length_write]
  split_ifs <;> simp_all [Heap.read_write]

theorem Heap.prev_swapNext (hp : Heap K) (a b x : Nat) :
    ((hp.swapNext a b).read x).prev = (hp.read x).prev := by
  simp only [Heap.swapNext, Heap.read_write, Heap.length_write]
  split_ifs <;> simp_all [Heap.read_write]

theorem Heap.data_swapPrev (hp : Heap K) (a b x : Nat) :
    ((hp.swapPrev a b).read x).data = (hp.read x).data := by
  simp only [Heap.swapPrev, Heap.read_write, Heap.length_write]
  split_ifs <;> simp_all [Heap.read_write]

theorem Heap.next_swapPrev (hp : Heap K) (a b x : Nat) :
    ((hp.swapPrev a b).read x).next = (hp.read x).next := by
  simp only [Heap.swapPrev, Heap.read_write, Heap.length_write]
  split_ifs <;> simp_all [Heap.read_write]

theorem mapGet_filter_self (m : List (CacheKey × CacheEntry T)) (k : CacheKey) :
    mapGet (m.filter (fun p => p.1 ≠ k)) k = none := by
  induction m with
  | nil => rfl
  | cons p t ih =>
      by_cases hp : p.1 = k
      · simpa [mapGet, List.filter_cons, hp] using ih
      · simpa [mapGet, List.filter_cons, hp, List.find?] using ih

theorem mapGet_insert (m : List (CacheKey × CacheEntry T)) (k : CacheKey)
    (e : CacheEntry T) : mapGet (mapInsert m k e) k = some e := by
  unfold mapInsert
  induction m with
  | nil => simp [mapGet, List.find?]
  | cons p t ih =>
      by_cases hp : p.1 = k
      · simpa [List.filter_cons, hp] using ih
      · simpa [mapGet, List.filter_cons, hp, List.find?] using ih

theorem mapGet_insert_ne (m : List (CacheKey × CacheEntry T)) (k k' : CacheKey)
    (e : CacheEntry T) (h : k' ≠ k) :
    mapGet (mapInsert m k e) k' = mapGet m k' := by
  have hkk' : ¬ (k = k') := fun hh => h hh.symm
  unfold mapInsert
  induction m with
  | nil => simp [mapGet, List.find?, hkk']
  | cons p t ih =>
      by_cases hp : p.1 = k
      · have hpk' : ¬ p.1 = k' := by rw [hp]; exact hkk'
        simpa [mapGet, List.filter_cons, hp, List.find?, hpk', hkk'] using ih
      · by_cases hpk' : p.1 = k'
        · simp [mapGet, List.filter_cons, hp, List.find?, hpk', hkk', h]
        · simpa [mapGet, List.filter_cons, hp, List.find?, hpk', hkk'] using ih

theorem Heap.read_oob (hp : Heap K) (a : Nat) (h : hp.length ≤ a) :
    hp.read a = { next := none, prev := none, data := none } := by
  unfold Heap.read
  rw [List.getD_eq_getElem?_getD, List.getElem?_eq_none h]
  rfl

theorem Heap.data_write_of (hp : Heap K) (c : Nat) (nn : LRUNode K)
    (hnn : nn.data = (hp.read c).data) (x : Nat) :
    ((hp.write c nn).read x).data = (hp.read x).data := by
  rw [Heap.read_write]
  split_ifs with hx
  · rw [hnn, hx.1]
  · rfl

theorem Heap.prev_write_of (hp : Heap K) (c : Nat) (nn : LRUNode K)
    (hnn : nn.prev = (hp.read c).prev) (x : Nat) :
    ((hp.write c nn).read x).prev = (hp.read x).prev := by
  rw [Heap.read_write]
  split_ifs with hx
  · rw [hnn, hx.1]
  · rfl

theorem Heap.next_write_of (hp : Heap K) (c : Nat) (nn : LRUNode K)
    (hnn : nn.next = (hp.read c).next) (x : Nat) :
    ((hp.write c nn).read x).next = (hp.read x).next := by
  rw [Heap.read_write]
  split_ifs with hx
  · rw [hnn, hx.1]
  · rfl

theorem LRUList.remove_of_data_some (l : LRUList K) (h : Nat) (d : K)
    (hd : (l.heap.read h).data = some d) :
    ∃ l' : LRUList K, l.remove h = some (l', d) := by
  unfold LRUList.remove
  dsimp only
  rcases hnx : (l.heap.read h).next with _ | nextA
  · simp only [hnx]
    rcases hpv : (l.heap.read h).prev with _ | prevA
    · simp only [hpv, hd]
      exact ⟨_, rfl⟩
    · simp only [hpv, Heap.data_swapNext, hd]
      exact ⟨_, rfl⟩
  · simp only [hnx]
    rcases hpv : ((l.heap.swapPrev nextA h).read h).prev with _ | prevA
    · simp only [hpv, Heap.data_swapPrev, hd]
      exact ⟨_, rfl⟩
    · simp only [hpv, Heap.data_swapNext, Heap.data_swapPrev, hd]
      exact ⟨_, rfl⟩

theorem Heap.next_swapNext_snd (hp : Heap K) (a b : Nat) (hbL : b < hp.length) :
    ((hp.swapNext a b).read b).next = (hp.read a).next := by
  unfold Heap.swapNext
  rw [Heap.read_write]
  rw [if_pos ⟨rfl, by simpa [Heap.length_write] using hbL⟩]

theorem LRUList.insert_spec (l : LRUList K) (e : K) :
    (l.insert e).2 = l.heap.length
    ∧ (l.insert e).1.heap.length = l.heap.length + 1
    ∧ (l.insert e).1.count = l.count + 1
    ∧ ((l.insert e).1.heap.read 0).next = some l.heap.length
    ∧ ((l.insert e).1.heap.read l.heap.length).prev = some 0
    ∧ ((l.insert e).1.heap.read l.heap.length).data = some e
    ∧ ((l.heap.read 0).next = none →
        ((l.insert e).1.heap.read 0).prev = some l.heap.length)
    ∧ (((l.heap.read 0).prev).isSome = true →
        (((l.insert e).1.heap.read 0).prev).isSome = true) := by
  unfold LRUList.insert
  rcases hnx : (l.heap.read 0).next with _ | oldfront
  · -- first-node branch
    dsimp only
    by_cases h0 : l.heap.length = 0
    · refine ⟨rfl, by simp [Heap.length_write, Heap.length_alloc], rfl, ?_, ?_, ?_, ?_, ?_⟩
      all_goals
        simp [Heap.read_write, Heap.read_alloc, Heap.length_alloc, h0]
    · have hpos : 0 < l.heap.length := Nat.pos_of_ne_zero h0
      refine ⟨rfl, by simp [Heap.length_write, Heap.length_alloc], rfl, ?_, ?_, ?_, ?_, ?_⟩
      · simp [Heap.read_write, Heap.length_alloc, Heap.length_write, hpos]
      · simp [Heap.read_write, Heap.read_alloc, Heap.length_alloc, h0, Ne.symm h0]
      · simp [Heap.read_write, Heap.read_alloc, Heap.length_alloc, h0, Ne.symm h0]
      · intro _
        simp [Heap.read_write, Heap.length_alloc, hpos]
      · intro _
        simp [Heap.read_write, Heap.length_alloc, hpos]
  · -- non-first branch
    have hlen : 0 < l.heap.length := by
      by_contra hc
      push_neg at hc
      rw [Heap.read_oob l.heap 0 (by omega)] at hnx
      cases hnx
    have hne : l.heap.length ≠ 0 := by omega
    dsimp only
    refine ⟨rfl, by simp [Heap.length_write, Heap.length_alloc], rfl, ?_, ?_, ?_, ?_, ?_⟩
    · simp [Heap.read_write, Heap.length_alloc, Heap.length_write, hlen]
    · simp [Heap.read_write, Heap.read_alloc, Heap.length_alloc, Heap.length_write, hne,
        Ne.symm hne]
    · simp [Heap.read_write, Heap.read_alloc, Heap.length_alloc, Heap.length_write, hne,
        Ne.symm hne]
    · intro hcon
      cases hcon
    · intro hsome
      simp only [Heap.read_write, Heap.read_alloc, Heap.length_alloc, Heap.length_write]
      by_cases hof : oldfront = 0
      · subst hof
        simp [Heap.read_write, hlen, hne, Ne.symm hne]
      · simp [Heap.read_write, hlen, hne, Ne.symm hne, hof, Ne.symm hof]
        exact hsome

theorem LRUList.reinsert_front_spec (l : LRUList K) (a p : Nat)
    (ha0 : a ≠ 0)
    (hprev : (l.heap.read a).prev = some p)
    (hpn : (l.heap.read p).next = some a)
    (hhp : ((l.heap.read 0).prev).isSome = true) :
    ∃ l' : LRUList K, l.reinsert_front a = some l'
      ∧ ((l'.heap.read 0).next = some a)
      ∧ (∀ x : Nat, ((l'.heap.read x).data) = ((l.heap.read x).data))
      ∧ l'.count = l.count
      ∧ l'.heap.length = l.heap.length := by
  have haL : a < l.heap.length := by
    by_contra hc
    push_neg at hc
    rw [Heap.read_oob _ _ hc] at hprev
    cases hprev
  have hpL : p < l.heap.length := by
    by_contra hc
    push_neg at hc
    rw [Heap.read_oob _ _ hc] at hpn
    cases hpn
  have h0L : 0 < l.heap.length := by omega
  unfold LRUList.reinsert_front
  rw [hprev]
  dsimp only
  set H1 : Heap K :=
    (match (l.heap.read a).next with
      | some nextA => l.heap.write nextA { l.heap.read nextA with prev := some p }
      | none => l.heap.write 0 { l.heap.read 0 with prev := some p }) with hH1
  have hL1 : H1.length = l.heap.length := by
    rw [hH1]
    split <;> simp [Heap.length_write]
  have hn1 : ∀ x, (H1.read x).next = (l.heap.read x).next := by
    intro x
    rw [hH1]
    split <;> exact Heap.next_write_of _ _ _ (by rfl) x
  have hd1 : ∀ x, (H1.read x).data = (l.heap.read x).data := by
    intro x
    rw [hH1]
    split <;> exact Heap.data_write_of _ _ _ (by rfl) x
  have hp1 : ((H1.read 0).prev).isSome = true := by
    rw [hH1]
    split
    · rw [Heap.read_write]
      split_ifs with hc
      · rfl
      · exact hhp
    · rw [Heap.read_write, if_pos ⟨rfl, h0L⟩]
      rfl
  set H2 : Heap K := H1.swapNext p a with hH2
  have hL2 : H2.length = l.heap.length := by
    rw [hH2, Heap.length_swapNext, hL1]
  have h2a : (H2.read a).next = some a := by
    rw [hH2, Heap.next_swapNext_snd _ _ _ (by omega), hn1 p, hpn]
  have hprev2 : ∀ x, (H2.read x).prev = (H1.read x).prev := by
    intro x
    rw [hH2, Heap.prev_swapNext]
  have hd2 : ∀ x, (H2.read x).data = (l.heap.read x).data := by
    intro x
    rw [hH2, Heap.data_swapNext]
    exact hd1 x
  set H3 : Heap K := H2.swapNext a 0 with hH3
  have hL3 : H3.length = l.heap.length := by
    rw [hH3, Heap.length_swapNext, hL2]
  have h30 : (H3.read 0).next = some a := by
    rw [hH3, Heap.next_swapNext_snd _ _ _ (by omega)]
    exact h2a
  have hprev3 : ∀ x, (H3.read x).prev = (H1.read x).prev := by
    intro x
    rw [hH3, Heap.prev_swapNext]
    exact hprev2 x
  have hd3 : ∀ x, (H3.read x).data = (l.heap.read x).data := by
    intro x
    rw [hH3, Heap.data_swapNext]
    exact hd2 x
  rcases hY : (H3.read a).next with _ | newnextA <;> dsimp only
  · -- the moved node has no successor: head.prev := some a
    have hn4 : ((H3.write 0 { H3.read 0 with prev := some a }).read 0).next = some a :=
      (Heap.next_write_of _ _ _ (by rfl) 0).trans h30
    have hp4 : ((H3.write 0 { H3.read 0 with prev := some a }).read 0).prev = some a := by
      rw [Heap.read_write, if_pos ⟨rfl, by omega⟩]
    rw [if_pos ⟨by rw [hn4]; rfl, by rw [hp4]; rfl⟩]
    refine ⟨_, rfl, hn4, ?_, rfl, ?_⟩
    · intro x
      exact (Heap.data_write_of _ _ _ (by rfl) x).trans (hd3 x)
    · rw [Heap.length_write]
      exact hL3
  · -- the moved node has a successor newnextA
    set HA : Heap K := H3.write a
      { next := some newnextA, prev := (H3.read newnextA).prev, data := (H3.read a).data }
      with hHA
    have hA0n : (HA.read 0).next = some a := by
      rw [hHA]
      exact (Heap.next_write_of _ _ _ (by rw [hY]) 0).trans h30
    have hA0p : ((HA.read 0).prev).isSome = true := by
      rw [hHA, Heap.read_write, if_neg (fun hcc => ha0 hcc.1.symm), hprev3 0]
      exact hp1
    have hAd : ∀ x, (HA.read x).data = (l.heap.read x).data := by
      intro x
      rw [hHA]
      exact (Heap.data_write_of _ _ _ (by rfl) x).trans (hd3 x)
    have hAL : HA.length = l.heap.length := by
      rw [hHA, Heap.length_write]
      exact hL3
    have hn4 : ((HA.write newnextA
        { next := (HA.read newnextA).next, prev := some a,
          data := (HA.read newnextA).data }).read 0).next = some a :=
      (Heap.next_write_of _ _ _ (by rfl) 0).trans hA0n
    have hp4 : (((HA.write newnextA
        { next := (HA.read newnextA).next, prev := some a,
          data := (HA.read newnextA).data }).read 0).prev).isSome = true := by
      by_cases hnn0 : newnextA = 0
      · subst hnn0
        rw [Heap.read_write, if_pos ⟨rfl, by omega⟩]
        rfl
      · rw [Heap.read_write, if_neg (fun hcc => hnn0 hcc.1.symm)]
        exact hA0p
    rw [if_pos ⟨by rw [hn4]; rfl, hp4⟩]
    refine ⟨_, rfl, hn4, ?_, rfl, ?_⟩
    · intro x
      exact (Heap.data_write_of _ _ _ (by rfl) x).trans (hAd x)
    · rw [Heap.length_write]
      exact hAL

theorem LRUList.remove_last_pop_spec (l l' : LRUList K) (rk : K)
    (h : l.remove_last = some (l', some rk)) :
    l'.heap.length = l.heap.length
    ∧ ∃ lastA : Nat, (∃ pp : Nat, (l.heap.read pp).next = some lastA)
        ∧ (l'.heap.read 0).prev = (l.heap.read lastA).prev := by
  unfold LRUList.remove_last at h
  split at h
  · rw [Option.some.injEq, Prod.mk.injEq] at h
    cases h.2
  · rename_i tailp htailp
    split at h
    · cases h
    · rename_i pp hppv
      dsimp only at h
      split at h
      · rename_i lastA hlast
        have h0L : 0 < l.heap.length := by
          by_contra hc
          push_neg at hc
          rw [Heap.read_oob _ _ (by omega)] at htailp
          cases htailp
        rw [Option.some.injEq, Prod.mk.injEq] at h
        obtain ⟨hl', _⟩ := h
        subst hl'
        constructor
        · simp [Heap.length_write]
        · refine ⟨lastA, ⟨pp, hlast⟩, ?_⟩
          dsimp only
          rw [Heap.prev_write_of _ _ _ (by rfl) 0, Heap.read_write, if_pos ⟨rfl, by
            simp [Heap.length_write, h0L]⟩]
          exact Heap.prev_write_of _ _ _ (by rfl) lastA
      · rw [Option.some.injEq, Prod.mk.injEq] at h
        cases h.2
theorem Cache.get_hit_spec {T : Type} (c : Cache T) (k : CacheKey) (v : T) (a p : Nat)
    (hget : mapGet c.map k = some (v, a))
    (ha0 : a ≠ 0)
    (hprev : (c.list.heap.read a).prev = some p)
    (hpn : (c.list.heap.read p).next = some a)
    (hhp : ((c.list.heap.read 0).prev).isSome = true) :
    ∃ st' : Cache T, Cache.get c k = some (st', some v)
      ∧ ((st'.list.heap.read 0).next = some a)
      ∧ (∀ x : Nat, (st'.list.heap.read x).data = (c.list.heap.read x).data)
      ∧ st'.map = c.map ∧ st'.cap = c.cap ∧ st'.list.count = c.list.count := by
  obtain ⟨l', hrf, hfront, hdata, hcnt, hlen⟩ :=
    LRUList.reinsert_front_spec c.list a p ha0 hprev hpn hhp
  refine ⟨{ c with list := l' }, ?_, hfront, hdata, rfl, rfl, hcnt⟩
  unfold Cache.get
  rw [hget]
  dsimp only
  rw [hrf]
theorem length_mapInsert_of_get {T : Type} (m : List (CacheKey × CacheEntry T))
    (k : CacheKey) (e e0 : CacheEntry T) (hnd : (m.map Prod.fst).Nodup)
    (hmem : mapGet m k = some e0) :
    (mapInsert m k e).length = m.length := by
  unfold mapInsert
  induction m with
  | nil => simp [mapGet] at hmem
  | cons p t ih =>
      simp only [List.map_cons, List.nodup_cons] at hnd
      by_cases hp : p.1 = k
      · have hkt : t.filter (fun q => q.1 ≠ k) = t := by
          rw [List.filter_eq_self]
          intro q hq
          simp only [ne_eq, decide_eq_true_eq]
          intro hqk
          apply hnd.1
          rw [hp, ← hqk]
          exact List.mem_map_of_mem Prod.fst hq
        rw [List.filter_cons, if_neg (by simp [hp]), hkt]
        simp
      · have hmem' : mapGet t k = some e0 := by
          simpa [mapGet, List.find?, hp] using hmem
        have ih' := ih hnd.2 hmem'
        rw [List.filter_cons, if_pos (by simp [hp]), List.cons_append, List.length_cons, ih']
        simp

theorem LRUList.insert_data_preserve (l : LRUList K) (e : K) (x : Nat)
    (hx : x < l.heap.length) :
    ((l.insert e).1.heap.read x).data = (l.heap.read x).data := by
  have hxne : x ≠ l.heap.length := by omega
  unfold LRUList.insert
  rcases hnx : (l.heap.read 0).next with _ | oldfront <;> dsimp only
  · refine (Heap.data_write_of _ _ _ (by rfl) x).trans ?_
    unfold Heap.read Heap.alloc
    rw [List.getD_eq_getElem?_getD, List.getElem?_append_left hx,
      ← List.getD_eq_getElem?_getD]
  · refine (Heap.data_write_of _ _ _ (by rfl) x).trans ?_
    have hxne' : x ≠ (l.heap.write oldfront
        { l.heap.read oldfront with prev := some l.heap.length }).length := by
      rw [Heap.length_write]
      exact hxne
    rw [Heap.read_alloc, if_neg hxne']
    exact Heap.data_write_of _ _ _ (by rfl) x

theorem LRUList.insert_next_preserve (l : LRUList K) (e : K) (h0 : Nat)
    (hx : ∃ p0 : Nat, (l.heap.read p0).next = some h0) :
    ∃ q : Nat, ((l.insert e).1.heap.read q).next = some h0 := by
  obtain ⟨p0, hp0⟩ := hx
  have hp0L : p0 < l.heap.length := by
    by_contra hc
    push_neg at hc
    rw [Heap.read_oob _ _ hc] at hp0
    cases hp0
  unfold LRUList.insert
  rcases hnx : (l.heap.read 0).next with _ | oldfront <;> dsimp only
  · by_cases hq0 : p0 = 0
    · rw [hq0, hnx] at hp0
      cases hp0
    · refine ⟨p0, ?_⟩
      rw [Heap.read_write, if_neg (fun hcc => hq0 hcc.1), Heap.read_alloc,
        if_neg (by omega)]
      exact hp0
  · have hlen : 0 < l.heap.length := by
      by_contra hc
      push_neg at hc
      rw [Heap.read_oob _ _ (by omega)] at hnx
      cases hnx
    by_cases hq0 : p0 = 0
    · -- the node was the old front; the fresh node now points at it
      rw [hq0, hnx] at hp0
      refine ⟨l.heap.length, ?_⟩
      rw [Heap.read_write, if_neg (by omega), Heap.read_alloc,
        if_pos (by rw [Heap.length_write])]
      dsimp only
      rw [Heap.next_write_of _ _ _ (by rfl) 0, hnx]
      exact hp0
    · refine ⟨p0, ?_⟩
      rw [Heap.read_write, if_neg (fun hcc => hq0 hcc.1), Heap.read_alloc,
        if_neg (by rw [Heap.length_write]; omega)]
      exact (Heap.next_write_of _ _ _ (by rfl) p0).trans hp0

theorem nextLinksValid_of_forall (l : LRUList K)
    (h : ∀ x, x < l.heap.length →
      (match (l.heap.read x).next with
        | some y => y ≠ 0 ∧ y < l.heap.length
        | none => True)) :
    ∀ x y : Nat, (l.heap.read x).next = some y → y ≠ 0 ∧ y < l.heap.length := by
  intro x y hxy
  by_cases hx : x < l.heap.length
  · have hh := h x hx
    rw [hxy] at hh
    exact hh
  · push_neg at hx
    rw [Heap.read_oob _ _ hx] at hxy
    cases hxy

theorem tagFrom_map_fst {T : Type} (i : Nat) (l : List (CacheKey × T)) :
    (tagFrom (T := T) i l).map Prod.fst = l.map Prod.fst := by
  induction l generalizing i with
  | nil => rfl
  | cons p rest ih =>
      obtain ⟨k, v⟩ := p
      simp [tagFrom, ih]

theorem tagFrom_append {T : Type} (i : Nat) (l : List (CacheKey × T)) (k : CacheKey) (v : T) :
    tagFrom (T := T) i (l ++ [(k, v)])
      = tagFrom i l ++ [(k, (v, i + l.length + 1))] := by
  induction l generalizing i with
  | nil => simp [tagFrom]
  | cons p rest ih =>
      obtain ⟨k2, v2⟩ := p
      simp only [List.cons_append, tagFrom, ih, List.length_cons]
      rw [List.cons_inj_right]
      have : i + 1 + rest.length + 1 = i + (rest.length + 1) + 1 := by omega
      rw [← this]
      rw [← ih]
      rfl

theorem filter_tagFrom_fresh {T : Type} (i : Nat) (l : List (CacheKey × T)) (k : CacheKey)
    (h : k ∉ l.map Prod.fst) :
    (tagFrom (T := T) i l).filter (fun p => p.1 ≠ k) = tagFrom i l := by
  rw [List.filter_eq_self]
  intro p hp
  simp only [ne_eq, decide_eq_true_eq]
  intro hpk
  apply h
  rw [← hpk]
  rw [← tagFrom_map_fst i l]
  exact List.mem_map_of_mem Prod.fst hp

theorem mapGet_eq_none_of_not_mem {T : Type} (m : List (CacheKey × CacheEntry T))
    (k : CacheKey) (h : k ∉ m.map Prod.fst) :
    mapGet m k = none := by
  induction m with
  | nil => rfl
  | cons p t ih =>
      simp only [List.map_cons, List.mem_cons, not_or] at h
      have hp : ¬ (p.1 = k) := fun hh => h.1 hh.symm
      simp only [mapGet, List.find?, hp]
      simpa [mapGet, hp] using ih h.2

theorem insertSeq_append {T : Type} (st : Cache T) (l1 l2 : List (CacheKey × T)) :
    insertSeq st (l1 ++ l2) = (insertSeq st l1).bind (fun s => insertSeq s l2) := by
  induction l1 generalizing st with
  | nil => rfl
  | cons p rest ih =>
      obtain ⟨k, v⟩ := p
      simp only [List.cons_append, insertSeq]
      cases Cache.insert st k v with
      | none => rfl
      | some st2 => exact ih st2

theorem ListShape_evict {T : Type} (s : Nat) (kvs : List (CacheKey × T))
    (l : LRUList CacheKey) (key : CacheKey) (val : T)
    (hshape : ListShape s kvs l.heap) (hsm : s < kvs.length)
    (hkv : kvs[s]? = some (key, val)) :
    ∃ l1 : LRUList CacheKey, l.remove_last = some (l1, some key)
      ∧ l1.count = l.count - 1
      ∧ l1.heap.length = kvs.length + 1
      ∧ (if s + 1 < kvs.length then ListShape (s + 1) kvs l1.heap
         else (l1.heap.read 0).next = none) := by
  obtain ⟨hL, hn0, hp0, hnodes⟩ := hshape
  have hm0 : kvs.length ≠ 0 := by omega
  rw [if_neg hm0] at hn0 hp0
  have htail := hnodes (s + 1) (Nat.le_refl _) (by omega)
  unfold LRUList.remove_last
  rw [hp0]
  dsimp only
  rw [htail.2.1]
  by_cases hC1 : s + 1 = kvs.length
  · -- the sole live node is being evicted (capacity 1)
    rw [if_pos hC1]
    dsimp only
    rw [hn0]
    dsimp only
    have hdata : ((l.heap.write 0
        { l.heap.read 0 with next := none }).read kvs.length).data = some key := by
      rw [← hC1, Heap.data_write_of _ _ _ (by rfl), htail.2.2]
      simp only [Nat.add_sub_cancel]
      rw [hkv]
      rfl
    rw [hdata]
    refine ⟨_, rfl, rfl, ?_, ?_⟩
    · simp [Heap.length_write, hL]
    · rw [if_neg (by omega)]
      rw [Heap.next_write_of _ _ _ (by rfl) 0, Heap.next_write_of _ _ _ (by rfl) 0,
        Heap.read_write, if_pos ⟨rfl, by omega⟩]
  · -- at least two live nodes remain structured (capacity ≥ 2)
    rw [if_neg hC1]
    dsimp only
    have hs2 : s + 2 ≤ kvs.length := by omega
    have hnode2 := hnodes (s + 2) (by omega) hs2
    rw [hnode2.1, if_neg (by omega)]
    dsimp only
    have hprev1 : ((l.heap.write (s + 2)
        { l.heap.read (s + 2) with next := none }).read (s + 1)).prev = some (s + 2) := by
      rw [Heap.prev_write_of _ _ _ (by rfl), htail.2.1, if_neg hC1]
    have hdata1 : ((l.heap.write (s + 2)
        { l.heap.read (s + 2) with next := none }).read (s + 1)).data = some key := by
      rw [Heap.data_write_of _ _ _ (by rfl), htail.2.2]
      simp only [Nat.add_sub_cancel]
      rw [hkv]
      rfl
    have he21 : s + 2 - 1 = s + 1 := by omega
    rw [he21, hprev1, hdata1]
    refine ⟨_, rfl, rfl, ?_, ?_⟩
    · simp [Heap.length_write, hL]
    · rw [if_pos (by omega)]
      refine ⟨by simp [Heap.length_write, hL], ?_, ?_, ?_⟩
      · rw [if_neg hm0, Heap.next_write_of _ _ _ (by rfl) 0,
          Heap.next_write_of _ _ _ (by rfl) 0, Heap.read_write, if_neg (by omega)]
        exact hn0
      · rw [if_neg hm0, Heap.prev_write_of _ _ _ (by rfl) 0, Heap.read_write,
          if_pos ⟨rfl, by simp only [Heap.length_write]; omega⟩]
      · intro j hj1 hj2
        have hold := hnodes j (by omega) hj2
        refine ⟨?_, ?_, ?_⟩
        · by_cases hj : j = s + 2
          · rw [if_pos (by omega), Heap.read_write, if_neg (by omega),
              Heap.read_write, if_neg (by omega), Heap.read_write,
              if_pos ⟨hj, by omega⟩]
          · rw [if_neg (by omega), Heap.read_write, if_neg (by omega),
              Heap.read_write, if_neg (by omega), Heap.read_write, if_neg (by
                intro hcc
                exact hj hcc.1)]
            rw [hold.1, if_neg (by omega)]
        · rw [Heap.prev_write_of _ _ _ (by rfl) j, Heap.read_write, if_neg (by omega),
            Heap.prev_write_of _ _ _ (by rfl) j]
          exact hold.2.1
        · rw [Heap.read_write, if_neg (by omega), Heap.data_write_of _ _ _ (by rfl) j,
            Heap.data_write_of _ _ _ (by rfl) j]
          exact hold.2.2

theorem LRUList.insert_spec2 (l : LRUList K) (e : K) (hlen : 0 < l.heap.length) :
    (((l.insert e).1.heap.read l.heap.length).next = (l.heap.read 0).next)
    ∧ (∀ f : Nat, (l.heap.read 0).next = some f → f ≠ 0 →
        ((l.insert e).1.heap.read 0).prev = (l.heap.read 0).prev)
    ∧ (∀ f : Nat, (l.heap.read 0).next = some f → f ≠ 0 → f < l.heap.length →
        ((l.insert e).1.heap.read f).prev = some l.heap.length)
    ∧ (∀ x : Nat, x ≠ 0 → x < l.heap.length →
        ((l.insert e).1.heap.read x).next = (l.heap.read x).next)
    ∧ (∀ x : Nat, x ≠ 0 → x < l.heap.length → (l.heap.read 0).next ≠ some x →
        ((l.insert e).1.heap.read x).prev = (l.heap.read x).prev) := by
  have hne0 : l.heap.length ≠ 0 := by omega
  unfold LRUList.insert
  rcases hnx : (l.heap.read 0).next with _ | oldfront <;> dsimp only
  · -- first-node branch
    refine ⟨?_, ?_, ?_, ?_, ?_⟩
    · rw [Heap.read_write, if_neg (fun hcc => hne0 hcc.1), Heap.read_alloc,
        if_pos rfl]
    · intro f hf
      cases hf
    · intro f hf
      cases hf
    · intro x hx0 hxL
      rw [Heap.read_write, if_neg (fun hcc => hx0 hcc.1), Heap.read_alloc,
        if_neg (by omega)]
    · intro x hx0 hxL _
      rw [Heap.read_write, if_neg (fun hcc => hx0 hcc.1), Heap.read_alloc,
        if_neg (by omega)]
  · -- non-first branch
    refine ⟨?_, ?_, ?_, ?_, ?_⟩
    · rw [Heap.read_write, if_neg (fun hcc => hne0 hcc.1), Heap.read_alloc,
        if_pos (by rw [Heap.length_write])]
      dsimp only
      rw [Heap.next_write_of _ _ _ (by rfl) 0]
      exact hnx
    · intro f hf hf0
      rw [Option.some.injEq] at hf
      refine (Heap.prev_write_of _ _ _ (by rfl) 0).trans ?_
      rw [Heap.read_alloc, if_neg (by rw [Heap.length_write]; omega), Heap.read_write,
        if_neg (by intro hcc; exact hf0 (hf ▸ hcc.1.symm))]
    · intro f hf hf0 hfL
      rw [Option.some.injEq] at hf
      subst hf
      refine (Heap.prev_write_of _ _ _ (by rfl) oldfront).trans ?_
      rw [Heap.read_alloc, if_neg (by rw [Heap.length_write]; omega), Heap.read_write,
        if_pos ⟨rfl, hfL⟩]
    · intro x hx0 hxL
      rw [Heap.read_write, if_neg (fun hcc => hx0 hcc.1), Heap.read_alloc,
        if_neg (by rw [Heap.length_write]; omega)]
      exact Heap.next_write_of _ _ _ (by rfl) x
    · intro x hx0 hxL hxf
      have hxf2 : oldfront ≠ x := fun hh => hxf (by rw [hh])
      refine (Heap.prev_write_of _ _ _ (by rfl) x).trans ?_
      rw [Heap.read_alloc, if_neg (by rw [Heap.length_write]; omega), Heap.read_write,
        if_neg (by intro hcc; exact hxf2 hcc.1.symm)]

theorem ListShape_insert_first {T : Type} (kvs : List (CacheKey × T))
    (l : LRUList CacheKey) (k : CacheKey) (v : T)
    (hlen : l.heap.length = kvs.length + 1)
    (hnone : (l.heap.read 0).next = none) :
    ListShape kvs.length (kvs ++ [(k, v)]) ((l.insert k).1).heap := by
  obtain ⟨hv2, hvlen, hvcnt, hvfront, hvprev, hvdata, hfirst, hpsome⟩ :=
    LRUList.insert_spec l k
  obtain ⟨hs1, hs2, hs3, hs4, hs5⟩ := LRUList.insert_spec2 l k (by omega)
  have hm' : (kvs ++ [(k, v)]).length = kvs.length + 1 := by simp
  refine ⟨by rw [hvlen, hm', hlen], ?_, ?_, ?_⟩
  · rw [hm', if_neg (by omega), hvfront, hlen]
  · rw [hm', if_neg (by omega), hfirst hnone, hlen]
  · intro j hj1 hj2
    rw [hm'] at hj2
    have hj : j = kvs.length + 1 := by omega
    subst hj
    rw [← hlen]
    refine ⟨?_, ?_, ?_⟩
    · rw [if_pos rfl, hs1, hnone]
    · rw [if_pos (by rw [hm', hlen]), hvprev]
    · rw [hvdata, hlen]
      simp only [Nat.add_sub_cancel]
      rw [List.getElem?_concat_length]
      rfl

theorem ListShape_insert_fresh {T : Type} (s : Nat) (kvs : List (CacheKey × T))
    (l : LRUList CacheKey) (k : CacheKey) (v : T)
    (hshape : ListShape s kvs l.heap)
    (hsm : s < kvs.length ∨ (kvs.length = 0 ∧ s = 0)) :
    ListShape s (kvs ++ [(k, v)]) ((l.insert k).1).heap := by
  obtain ⟨hL, hn0, hp0, hnodes⟩ := hshape
  obtain ⟨hv2, hvlen, hvcnt, hvfront, hvprev, hvdata, hfirst, hpsome⟩ :=
    LRUList.insert_spec l k
  have hm' : (kvs ++ [(k, v)]).length = kvs.length + 1 := by simp
  rcases hsm with hsm | ⟨hm0, hs0⟩
  · -- there is at least one live node
    have hm0 : kvs.length ≠ 0 := by omega
    rw [if_neg hm0] at hn0 hp0
    obtain ⟨hs1, hs2, hs3, hs4, hs5⟩ := LRUList.insert_spec2 l k (by omega)
    refine ⟨by rw [hvlen, hm', hL], ?_, ?_, ?_⟩
    · rw [hm', if_neg (by omega), hvfront, hL]
    · rw [hm', if_neg (by omega), hs2 kvs.length hn0 hm0, hp0]
    · intro j hj1 hj2
      simp only [hm'] at hj2 ⊢
      by_cases hj : j = kvs.length + 1
      · -- the fresh node
        subst hj
        refine ⟨?_, ?_, ?_⟩
        · rw [if_neg (by omega), Nat.add_sub_cancel, ← hL, hs1, hn0]
        · rw [if_pos rfl, ← hL, hvprev]
        · rw [Nat.add_sub_cancel, ← hL, hvdata, List.getElem?_concat_length]
          rfl
      · -- an old node
        have hj2' : j ≤ kvs.length := by omega
        have hj0 : j ≠ 0 := by omega
        have hjL : j < l.heap.length := by omega
        have hold := hnodes j hj1 hj2'
        have hdata := LRUList.insert_data_preserve l k j hjL
        refine ⟨?_, ?_, ?_⟩
        · rw [hs4 j hj0 hjL, hold.1]
        · by_cases hjm : j = kvs.length
          · rw [if_neg (by omega), hjm, hs3 kvs.length hn0 hm0 (by omega), hL]
          · have hnej : (l.heap.read 0).next ≠ some j := by
              rw [hn0]
              intro hcc
              exact hjm (Option.some.inj hcc).symm
            rw [if_neg (by omega), hs5 j hj0 hjL hnej, hold.2.1, if_neg hjm]
        · rw [hdata, hold.2.2, List.getElem?_append_left (by omega)]
  · -- the list is empty: same as the first-node insert
    subst hs0
    have hres := ListShape_insert_first kvs l k v (by rw [hL])
      (by rw [hn0, if_pos hm0])
    rw [hm0] at hres
    exact hres


theorem mapGet_cons_self {T : Type} (k0 : CacheKey) (e0 : CacheEntry T)
    (rest : List (CacheKey × CacheEntry T)) :
    mapGet ((k0, e0) :: rest) k0 = some e0 := by
  simp [mapGet, List.find?]

theorem mapGet_tagFrom_of_getElem {T : Type} (l : List (CacheKey × T))
    (k : CacheKey) (v : T) (i j : Nat)
    (hnd : (l.map Prod.fst).Nodup) (hj : l[j]? = some (k, v)) :
    mapGet (tagFrom i l) k = some (v, i + j + 1) := by
  induction l generalizing i j with
  | nil => simp at hj
  | cons p rest ih =>
      obtain ⟨k0, v0⟩ := p
      rw [List.map_cons, List.nodup_cons] at hnd
      cases j with
      | zero =>
          rw [List.getElem?_cons_zero] at hj
          cases hj
          exact mapGet_cons_self k (v, i + 1) (tagFrom (i + 1) rest)
      | succ j2 =>
          rw [List.getElem?_cons_succ] at hj
          have hmem : k ∈ rest.map Prod.fst := by
            obtain ⟨hlt, he⟩ := List.getElem?_eq_some.mp hj
            exact List.mem_map_of_mem Prod.fst (he ▸ rest.getElem_mem hlt)
          have hk0 : ¬ ((k0 : CacheKey) = k) := fun he => hnd.1 (he ▸ hmem)
          have hstep := ih (i + 1) j2 hnd.2 hj
          have he : i + 1 + j2 + 1 = i + (j2 + 1) + 1 := by omega
          rw [he] at hstep
          simpa [mapGet, List.find?, hk0, tagFrom] using hstep

theorem Inv_insert {T : Type} (C : Nat) (hC : 0 < C) (kvs : List (CacheKey × T))
    (k : CacheKey) (v : T)
    (hfresh : k ∉ kvs.map Prod.fst)
    (hnd : (kvs.map Prod.fst).Nodup)
    (st : Cache T) (hinv : Inv C kvs st) :
    ∃ st' : Cache T, Cache.insert st k v = some st' ∧ Inv C (kvs ++ [(k, v)]) st' := by
  obtain ⟨hcap, hcnt, hmap, hshape⟩ := hinv
  have hm' : (kvs ++ [(k, v)]).length = kvs.length + 1 := by simp
  have hL := hshape.1
  obtain ⟨hv2, hvlen, hvcnt, hvfront, hvprev, hvdata, hfirst, hpsome⟩ :=
    LRUList.insert_spec st.list k
  by_cases hfull : kvs.length < C
  · -- no eviction
    have hs0 : kvs.length - min kvs.length C = 0 := by omega
    rw [hs0] at hmap hshape
    unfold Cache.insert
    dsimp only
    rw [if_neg (by simp only [LRUList.lcount]; omega)]
    refine ⟨_, rfl, hcap, ?_, ?_, ?_⟩
    · -- count
      rw [hvcnt, hcnt, hm']
      omega
    · -- map
      have hs0' : (kvs ++ [(k, v)]).length - min (kvs ++ [(k, v)]).length C = 0 := by
        rw [hm']
        omega
      rw [hs0', List.drop_zero, hmap, hv2, hL]
      unfold mapInsert
      rw [filter_tagFrom_fresh 0 (kvs.drop 0) k (by rw [List.drop_zero]; exact hfresh)]
      rw [List.drop_zero, tagFrom_append]
      simp
    · -- shape
      have hs0' : (kvs ++ [(k, v)]).length - min (kvs ++ [(k, v)]).length C = 0 := by
        rw [hm']
        omega
      rw [hs0']
      exact ListShape_insert_fresh 0 kvs st.list k v hshape (by omega)
  · -- eviction
    have hmin : min kvs.length C = C := by omega
    have hless : kvs.length - min kvs.length C < kvs.length := by omega
    rcases hkvq : kvs[kvs.length - min kvs.length C]? with _ | p
    · rw [List.getElem?_eq_none_iff] at hkvq
      omega
    obtain ⟨pk, pv⟩ := p
    obtain ⟨l1, hrl, hcnt1, hlen1, hshape1⟩ :=
      ListShape_evict _ kvs st.list pk pv hshape hless hkvq
    have hkeyeq : (kvs.map Prod.fst)[kvs.length - min kvs.length C]? = some pk := by
      rw [List.getElem?_map, hkvq]
      rfl
    have hdrop : kvs.drop (kvs.length - min kvs.length C)
        = (pk, pv) :: kvs.drop (kvs.length - min kvs.length C + 1) := by
      rw [List.drop_eq_getElem_cons hless]
      have := List.getElem?_eq_getElem hless
      rw [hkvq] at this
      rw [Option.some.injEq] at this
      rw [this]
    have hmapc : st.map = (pk, (pv, kvs.length - min kvs.length C + 1)) ::
        tagFrom (kvs.length - min kvs.length C + 1)
          (kvs.drop (kvs.length - min kvs.length C + 1)) := by
      rw [hmap, hdrop]
      rfl
    have hpkdrop : pk ∉ (kvs.drop (kvs.length - min kvs.length C + 1)).map Prod.fst := by
      have hsub : ((kvs.map Prod.fst).drop (kvs.length - min kvs.length C)).Nodup :=
        ((kvs.map Prod.fst).drop_sublist _).nodup hnd
      have hdropk : (kvs.map Prod.fst).drop (kvs.length - min kvs.length C)
          = pk :: (kvs.map Prod.fst).drop (kvs.length - min kvs.length C + 1) := by
        rw [List.drop_eq_getElem_cons (by rw [List.length_map]; exact hless)]
        have h2 := List.getElem?_eq_getElem (l := kvs.map Prod.fst)
          (by rw [List.length_map]; exact hless)
        rw [hkeyeq] at h2
        rw [Option.some.injEq] at h2
        rw [h2]
      rw [hdropk] at hsub
      rw [List.map_drop]
      exact (List.nodup_cons.mp hsub).1
    unfold Cache.insert
    dsimp only
    rw [if_pos (by simp only [LRUList.lcount]; omega)]
    rw [hrl]
    dsimp only
    unfold mapRemove
    have hget2 : mapGet st.map pk
        = some (pv, kvs.length - min kvs.length C + 1) := by
      rw [hmapc]
      exact mapGet_cons_self _ _ _
    rw [hget2]
    dsimp only
    have hfilter : st.map.filter (fun q => q.1 ≠ pk)
        = tagFrom (kvs.length - min kvs.length C + 1)
            (kvs.drop (kvs.length - min kvs.length C + 1)) := by
      rw [hmapc, List.filter_cons, if_neg (by simp)]
      exact filter_tagFrom_fresh _ _ _ hpkdrop
    rw [hfilter]
    obtain ⟨hw2, hwlen, hwcnt, hwfront, hwprev, hwdata, hwfirst, hwpsome⟩ :=
      LRUList.insert_spec l1 k
    have hs2' : (kvs ++ [(k, v)]).length - min (kvs ++ [(k, v)]).length C
        = kvs.length - min kvs.length C + 1 := by
      rw [hm']
      omega
    refine ⟨_, rfl, hcap, ?_, ?_, ?_⟩
    · rw [hwcnt, hcnt1, hcnt, hm']
      omega
    · rw [hs2', hw2, hlen1]
      unfold mapInsert
      rw [filter_tagFrom_fresh _ _ _ (by
          intro hmem
          apply hfresh
          rw [List.map_drop] at hmem
          exact List.mem_of_mem_drop hmem)]
      rw [List.drop_append_of_le_length (by omega), tagFrom_append]
      have haddr : kvs.length - min kvs.length C + 1
          + (kvs.drop (kvs.length - min kvs.length C + 1)).length + 1
          = kvs.length + 1 := by
        rw [List.length_drop]
        omega
      rw [haddr]
    · rw [hs2']
      by_cases hlt : kvs.length - min kvs.length C + 1 < kvs.length
      · rw [if_pos hlt] at hshape1
        exact ListShape_insert_fresh _ kvs l1 k v hshape1 (Or.inl hlt)
      · rw [if_neg hlt] at hshape1
        have heq : kvs.length - min kvs.length C + 1 = kvs.length := by omega
        rw [heq]
        exact ListShape_insert_first kvs l1 k v hlen1 hshape1

theorem insertSeq_inv {T : Type} (C : Nat) (hC : 0 < C) (kvs : List (CacheKey × T))
    (hnd : (kvs.map Prod.fst).Nodup) (st0 : Cache T) (h0 : Cache.new C = some st0) :
    ∃ st : Cache T, insertSeq st0 kvs = some st ∧ Inv C kvs st := by
  have hbase : Inv C [] st0 := by
    unfold Cache.new at h0
    rw [if_pos hC] at h0
    cases h0
    refine ⟨rfl, by simp [LRUList.new], by simp [tagFrom], ?_⟩
    refine ⟨rfl, by simp [LRUList.new, Heap.read], by simp [LRUList.new, Heap.read], ?_⟩
    intro j hj1 hj2
    simp at hj2
    omega
  clear h0
  induction kvs using List.reverseRecOn with
  | nil => exact ⟨st0, rfl, hbase⟩
  | append_singleton l p ih =>
      obtain ⟨pk, pv⟩ := p
      rw [List.map_append] at hnd
      have hnd2 := List.nodup_append.mp hnd
      have hnd' : (l.map Prod.fst).Nodup := hnd2.1
      have hfresh : pk ∉ l.map Prod.fst := by
        intro hm
        exact hnd2.2.2 hm (by simp)
      obtain ⟨st1, hseq1, hinv1⟩ := ih hnd'
      obtain ⟨st2, hins, hinv2⟩ := Inv_insert C hC l pk pv hfresh hnd' st1 hinv1
      refine ⟨st2, ?_, hinv2⟩
      rw [insertSeq_append, hseq1]
      show insertSeq st1 [(pk, pv)] = some st2
      unfold insertSeq
      rw [hins]
      rfl

/-! ## Claim theorems -/

/-- **C1** (code bug, failing-input evaluation).  The spec's invariant
`count() == number of live keys` is violated by the code: with capacity 2,
`insert([0], 1); insert([0], 2)` on a fresh cache leaves `count() = 2` while
the map stores the single key `[0]` (the duplicate insert pushes a second
list node for the same key without unlinking the old one).  `count() ≤ cap()`
does still hold here (2 ≤ 2). -/
theorem C1_count_invariant_fails_on_duplicate_insert :
    ((Cache.new 2).bind
        (fun c => insertSeq c [([0], 1), ([0], 2)]) : Option (Cache Nat)).map
        (fun c => (Cache.count c, c.map.map Prod.fst, Cache.capacity c))
      = some (2, [[0]], 2) := by
  decide

/-- **C6** (confirmed).  With capacity 2, the sequence
`insert(a,_); insert(a,_); insert(b,_); insert(c,_)` on distinct keys
`a = [0]`, `b = [1]`, `c = [2]` panics inside the fourth insert: the model
returns `none` (first conjunct).  The second conjunct exhibits the reason at
the state after the first three inserts: the eviction about to happen pops
the list key `[0]` (the orphaned duplicate node), but `[0]` is no longer in
the map, so `assert!(self.map.remove(&removed_key).is_some())` fails. -/
theorem C6_insert_sequence_panics_on_assert :
    (((Cache.new 2).bind
        (fun c => insertSeq c [([0], 1), ([0], 2), ([1], 3), ([2], 4)]))
      : Option (Cache Nat)) = none
    ∧ (((Cache.new 2).bind
          (fun c => insertSeq c [([0], 1), ([0], 2), ([1], 3)])).bind
          (fun c => (c.list.remove_last).map
            (fun p => (p.2, mapGet c.map [0])))
        : Option (Option CacheKey × Option (CacheEntry Nat)))
      = some (some [0], none) := by
  constructor
  · decide
  · decide

/-- **C9** (confirmed).  Recency-list unit level: insert `0..8` into an empty
list (handles `1..9`), then promote the `i`-th inserted handle to the front
in turn; after each promotion the front element equals `i` (first conjunct,
the source's `test_blockcache_lru_reinsert_2`).  The remaining conjuncts
check the position cases the sentence calls out: promoting the current front
node and promoting the sole element of a singleton list are exact no-ops on
the whole list state. -/
theorem C9_promote_each_handle_in_turn :
    promoteTrace (listOfNats [0, 1, 2, 3, 4, 5, 6, 7, 8]) [1, 2, 3, 4, 5, 6, 7, 8, 9]
        = some [some 0, some 1, some 2, some 3, some 4, some 5, some 6, some 7, some 8]
    ∧ (listOfNats [0, 1, 2]).reinsert_front 3 = some (listOfNats [0, 1, 2])
    ∧ (listOfNats [5]).reinsert_front 1 = some (listOfNats [5]) := by
  refine ⟨by decide, by decide, by decide⟩

/-- **C10** (confirmed).  Removing the sole element of a recency list leaves
both ends empty and consistent.  Via `remove_last` (first conjunct): the
sentinel's forward link is `none`, its backward link designates address 0
(the sentinel itself, whose payload is `none`, hence no live element), the
count is 0, the removed value is returned, and a subsequent `remove_last`
returns the empty result (no panic).  Via `remove` on the handle (second
conjunct): the forward link is `none`, the backward link designates the
freed node 1 whose payload is `none` (no live element), the count is 0, and
a subsequent `remove_last` again returns the empty result. -/
theorem C10_sole_element_removal_consistent :
    (soleList.remove_last).map (fun p =>
        ((p.1.heap.read 0).next, (p.1.heap.read 0).prev,
          (p.1.heap.read 0).data, p.1.lcount, p.2,
          (p.1.remove_last).map (fun q => q.2)))
        = some (none, some 0, none, 0, some 42, some none)
    ∧ (soleList.remove 1).map (fun p =>
        ((p.1.heap.read 0).next, (p.1.heap.read 0).prev,
          (p.1.heap.read 1).data, p.1.lcount, p.2,
          (p.1.remove_last).map (fun q => q.2)))
        = some (none, some 1, none, 0, 42, some none) := by
  refine ⟨by rfl, by rfl⟩

/-- **C8** (confirmed).  `new(capacity)` fails fatally (returns `none`,
modelling the `assert!(capacity > 0)` panic) iff the capacity is zero; for
every positive capacity it succeeds with `cap() = capacity` and
`count() = 0`; and no operation (`insert`, `get`, `remove`) ever changes
`cap()`. -/
theorem C8_new_capacity_semantics {T : Type} :
    (∀ c : Nat, (Cache.new (T := T) c = none ↔ c = 0))
    ∧ (∀ (c : Nat) (st : Cache T), Cache.new c = some st →
        Cache.capacity st = c ∧ Cache.count st = 0)
    ∧ (∀ (st : Cache T) (k : CacheKey) (v : T) (st' : Cache T),
        Cache.insert st k v = some st' → Cache.capacity st' = Cache.capacity st)
    ∧ (∀ (st : Cache T) (k : CacheKey) (r : Cache T × Option T),
        Cache.get st k = some r → Cache.capacity r.1 = Cache.capacity st)
    ∧ (∀ (st : Cache T) (k : CacheKey) (r : Cache T × Option T),
        Cache.remove st k = some r → Cache.capacity r.1 = Cache.capacity st) := by
  refine ⟨?_, ?_, ?_, ?_, ?_⟩
  · intro c
    by_cases h : c > 0 <;> simp [Cache.new, h] <;> omega
  · intro c st h
    unfold Cache.new at h
    split at h
    · cases h
      exact ⟨rfl, rfl⟩
    · cases h
  · intro st k v st' h
    unfold Cache.insert at h
    dsimp only at h
    split at h
    · cases h
    · rename_i l1 m1 heq
      cases h
      rfl
  · intro st k r h
    unfold Cache.get at h
    split at h
    · cases h
      rfl
    · rename_i elem handle heq
      split at h
      · cases h
      · cases h
        rfl
  · intro st k r h
    unfold Cache.remove at h
    split at h
    · cases h
      rfl
    · rename_i elem handle m' heq
      split at h
      · cases h
      · cases h
        rfl

/-- Witness for C8: the theorem applied at concrete inputs.  `new(0)` panics,
`new(3)` yields capacity 3 and count 0, and a concrete insert into that cache
leaves the capacity at 3. -/
theorem C8_new_capacity_semantics_witness :
    Cache.new (T := Nat) 0 = none
    ∧ Cache.capacity cacheW = 3 ∧ Cache.count cacheW = 0
    ∧ Cache.capacity ((Cache.insert cacheW [0] 5).getD cacheW) = 3 := by
  have h := C8_new_capacity_semantics (T := Nat)
  refine ⟨(h.1 0).mpr rfl, ?_, ?_, ?_⟩
  · exact (h.2.1 3 cacheW (by rfl)).1
  · exact (h.2.1 3 cacheW (by rfl)).2
  · exact (h.2.2.1 cacheW [0] 5 _ (by rfl)).trans rfl

/-- **C7** (confirmed).  `remove(k)` on a key bound to value `v` (with a
live list node) returns `v` exactly once: an immediate second `remove(k)`
returns the empty result on the unchanged state, and a miss on `get` or
`remove` is the explicit empty result `none`, never a panic. -/
theorem C7_remove_once_miss_is_none {T : Type} (st : Cache T) (k : CacheKey)
    (v : T) (a : Nat)
    (hget : mapGet st.map k = some (v, a))
    (hdata : ((st.list.heap.read a).data).isSome = true) :
    ∃ st' : Cache T,
      Cache.remove st k = some (st', some v)
      ∧ mapGet st'.map k = none
      ∧ Cache.remove st' k = some (st', none)
      ∧ Cache.get st' k = some (st', none) := by
  obtain ⟨d, hd⟩ := Option.isSome_iff_exists.mp hdata
  obtain ⟨l', hrem⟩ := LRUList.remove_of_data_some st.list a d hd
  refine ⟨{ list := l', map := st.map.filter (fun p => p.1 ≠ k), cap := st.cap },
    ?_, ?_, ?_, ?_⟩
  · unfold Cache.remove mapRemove
    rw [hget]
    dsimp only
    rw [hrem]
  · exact mapGet_filter_self _ _
  · unfold Cache.remove mapRemove
    rw [mapGet_filter_self]
  · unfold Cache.get
    rw [mapGet_filter_self]

/-- Witness for C7 at a concrete reachable cache: removing key `[2]` from
`cacheTwo` returns 20 once, then the second remove and a get both miss. -/
theorem C7_remove_once_miss_is_none_witness :
    ∃ st' : Cache Nat,
      Cache.remove cacheTwo [2] = some (st', some 20)
      ∧ mapGet st'.map [2] = none
      ∧ Cache.remove st' [2] = some (st', none)
      ∧ Cache.get st' [2] = some (st', none) :=
  C7_remove_once_miss_is_none cacheTwo [2] 20 2 (by decide) (by decide)

/-- **C4** (code bug, failing-input evaluation).  The claim says that after a
`get(k)` that hits, `k` is not the key evicted by the next capacity overflow
unless every other live key is also accessed after that `get`.  The code
falsifies this: from a fresh cache of capacity 3, after
`insert([0],1); insert([0],2); insert([1],3)` the duplicate insert has left
an orphaned node for `[0]` at the back of the recency list.  `get([0])` then
hits (returning 2 and promoting `[0]`'s live node to the front, so `[0]` is
the most-recently-used key), yet the very next `insert([2],4)` at capacity
pops the orphaned back node, whose key is `[0]`, and removes `[0]`'s live
map entry: `[0]` is evicted even though the other live key `[1]` was never
accessed after the `get`.  The tuple below records the hit result, the final
count, the final live keys (`[1]` and `[2]` only) and the `get([0])` miss
evidence `mapGet = none`. -/
theorem C4_mru_key_evicted_on_next_overflow :
    (((Cache.new 3).bind
        (fun c => insertSeq c [([0], 1), ([0], 2), ([1], 3)])).bind
      (fun c1 => (Cache.get c1 [0]).bind
        (fun r => (Cache.insert r.1 [2] 4).map
          (fun c3 => (r.2, Cache.count c3, c3.map.map Prod.fst,
                      mapGet c3.map [0])))))
      = some (some 2, 3, [[1], [2]], none) := by
  decide

/-- **C3** (confirmed).  Insert-then-get: in any cache state whose recency
list is structurally sound (nonempty heap, a back link on the sentinel
whenever it has a front node, forward links landing on allocated non-sentinel
cells, and a back link on every allocated non-sentinel cell), if `k` is not
currently in the cache and `insert(k, v)` completes without panicking, then
`get(k)` immediately afterwards hits and returns `v`. -/
theorem C3_insert_then_get {T : Type} (st : Cache T) (k : CacheKey) (v : T)
    (st' : Cache T)
    (hlen : 0 < st.list.heap.length)
    (hh2 : ((st.list.heap.read 0).next).isSome = true →
      ((st.list.heap.read 0).prev).isSome = true)
    (hvalid : ∀ x y : Nat, (st.list.heap.read x).next = some y →
      y ≠ 0 ∧ y < st.list.heap.length)
    (hback : ∀ x : Nat, x < st.list.heap.length → x ≠ 0 →
      ((st.list.heap.read x).prev).isSome = true)
    (_hmiss : mapGet st.map k = none)
    (hins : Cache.insert st k v = some st') :
    ∃ st'' : Cache T, Cache.get st' k = some (st'', some v) := by
  unfold Cache.insert at hins
  dsimp only at hins
  split at hins
  · cases hins
  · rename_i l1 m1 heq
    have hfacts : l1.heap.length = st.list.heap.length
        ∧ ((l1.heap.read 0).next = none ∨
            ((l1.heap.read 0).prev).isSome = true) := by
      split at heq
      · -- eviction happened
        split at heq
        · cases heq
        · -- remove_last = some (l1', some rk)
          rename_i l1' rk hrl
          unfold mapRemove at heq
          split at heq
          · -- the assert on the map removal passed
            rw [Option.some.injEq, Prod.mk.injEq] at heq
            obtain ⟨hl1, _⟩ := heq
            obtain ⟨hL, lastA, ⟨pp, hppn⟩, hprev0⟩ :=
              LRUList.remove_last_pop_spec st.list l1' rk hrl
            obtain ⟨hA0, hAL⟩ := hvalid pp lastA hppn
            rw [← hl1]
            refine ⟨hL, Or.inr ?_⟩
            rw [hprev0]
            exact hback lastA hAL hA0
          · cases heq
        · cases heq
      · -- no eviction
        rw [Option.some.injEq, Prod.mk.injEq] at heq
        obtain ⟨h1, h2⟩ := heq
        subst h1
        rcases hx : (st.list.heap.read 0).next with _ | f
        · exact ⟨rfl, Or.inl rfl⟩
        · exact ⟨rfl, Or.inr (hh2 (by rw [hx]; rfl))⟩
    obtain ⟨hL1eq, hcond2⟩ := hfacts
    obtain ⟨hv2, hvlen, hvcnt, hvfront, hvprev, hvdata, hfirst, hpsome⟩ :=
      LRUList.insert_spec l1 k
    have hlen1 : 0 < l1.heap.length := by omega
    have hhp' : (((l1.insert k).1.heap.read 0).prev).isSome = true := by
      rcases hcond2 with hnone | hsome
      · rw [hfirst hnone]
        rfl
      · exact hpsome hsome
    rw [Option.some.injEq] at hins
    subst hins
    obtain ⟨st'', hg, _⟩ := Cache.get_hit_spec
      { list := (l1.insert k).1, map := mapInsert m1 k (v, (l1.insert k).2),
        cap := st.cap }
      k v l1.heap.length 0
      (by rw [← hv2]; exact mapGet_insert _ _ _)
      (by omega)
      (by exact hvprev)
      (by exact hvfront)
      hhp'
    exact ⟨st'', hg⟩

/-- Witness for C3: inserting the fresh key `[3]` into `cacheTwo` and then
reading it back returns the inserted value 30. -/
theorem C3_insert_then_get_witness :
    ∃ st'' : Cache Nat,
      Cache.get ((Cache.insert cacheTwo [3] 30).getD cacheW) [3]
        = some (st'', some 30) :=
  C3_insert_then_get cacheTwo [3] 30 ((Cache.insert cacheTwo [3] 30).getD cacheW)
    (by decide) (by decide)
    (nextLinksValid_of_forall cacheTwo.list (by
      intro x hx
      have h3 : List.length cacheTwo.list.heap = 3 := rfl
      rw [h3] at hx
      interval_cases x <;>
        first
          | exact True.intro
          | exact ⟨by decide, by decide⟩))
    (by decide) (by decide) (by rfl)

/-- **C5** (corrected: the amended statement adds the below-capacity
hypothesis `hnotfull`).  Re-inserting an already-present key `k` into a
cache that is strictly below capacity pushes a fresh node for `k`
regardless: the list count grows by one while the number of map keys stays
the same, the map entry for `k` is overwritten with the new value and the
fresh handle, the old node for `k` stays linked in the list as an orphaned
duplicate still carrying `k`, and `get(k)` afterwards returns the new
value.  At capacity the claim is false of the code — `Cache::insert` evicts
the back of the list before pushing, so the count does not grow (see the
counterexample theorem). -/
theorem C5_duplicate_insert_orphans_old_node {T : Type} (st : Cache T)
    (k : CacheKey) (v0 v : T) (h0 : Nat)
    (hnotfull : st.list.lcount < st.cap)
    (hget0 : mapGet st.map k = some (v0, h0))
    (hdata0 : (st.list.heap.read h0).data = some k)
    (hlinked : ∃ p0 : Nat, (st.list.heap.read p0).next = some h0)
    (hnd : (st.map.map Prod.fst).Nodup)
    (hlen : 0 < st.list.heap.length)
    (hh2 : ((st.list.heap.read 0).next).isSome = true →
      ((st.list.heap.read 0).prev).isSome = true) :
    ∃ st' : Cache T, Cache.insert st k v = some st'
      ∧ st'.list.count = st.list.count + 1
      ∧ st'.map.length = st.map.length
      ∧ mapGet st'.map k = some (v, st.list.heap.length)
      ∧ (st'.list.heap.read h0).data = some k
      ∧ (∃ q : Nat, (st'.list.heap.read q).next = some h0)
      ∧ (∃ st'' : Cache T, Cache.get st' k = some (st'', some v)) := by
  have hh0L : h0 < st.list.heap.length := by
    by_contra hc
    push_neg at hc
    rw [Heap.read_oob _ _ hc] at hdata0
    cases hdata0
  obtain ⟨hv2, hvlen, hvcnt, hvfront, hvprev, hvdata, hfirst, hpsome⟩ :=
    LRUList.insert_spec st.list k
  refine ⟨{ list := (st.list.insert k).1,
            map := mapInsert st.map k (v, (st.list.insert k).2), cap := st.cap },
    ?_, hvcnt, ?_, ?_, ?_, ?_, ?_⟩
  · unfold Cache.insert
    dsimp only
    rw [if_neg (by omega)]
  · rw [hv2]
    exact length_mapInsert_of_get st.map k _ _ hnd hget0
  · rw [hv2]
    exact mapGet_insert _ _ _
  · dsimp only
    rw [LRUList.insert_data_preserve st.list k h0 hh0L]
    exact hdata0
  · exact LRUList.insert_next_preserve st.list k h0 hlinked
  · have hhp' : (((st.list.insert k).1.heap.read 0).prev).isSome = true := by
      rcases hx : (st.list.heap.read 0).next with _ | f
      · rw [hfirst hx]
        rfl
      · exact hpsome (hh2 (by rw [hx]; rfl))
    obtain ⟨st'', hg, _⟩ := Cache.get_hit_spec
      { list := (st.list.insert k).1,
        map := mapInsert st.map k (v, (st.list.insert k).2), cap := st.cap }
      k v st.list.heap.length 0
      (by rw [← hv2]; exact mapGet_insert _ _ _)
      (by omega)
      (by exact hvprev)
      (by exact hvfront)
      hhp'
    exact ⟨st'', hg⟩

/-- Witness for C5: re-inserting key `[1]` (already present with value 10,
node 1) into `cacheTwo` with value 99. -/
theorem C5_duplicate_insert_orphans_old_node_witness :
    ∃ st' : Cache Nat, Cache.insert cacheTwo [1] 99 = some st'
      ∧ st'.list.count = cacheTwo.list.count + 1
      ∧ st'.map.length = cacheTwo.map.length
      ∧ mapGet st'.map [1] = some (99, cacheTwo.list.heap.length)
      ∧ (st'.list.heap.read 1).data = some [1]
      ∧ (∃ q : Nat, (st'.list.heap.read q).next = some 1)
      ∧ (∃ st'' : Cache Nat, Cache.get st' [1] = some (st'', some 99)) :=
  C5_duplicate_insert_orphans_old_node cacheTwo [1] 10 99 1
    (by decide) (by decide) (by decide) ⟨2, by decide⟩ (by decide) (by decide)
    (by decide)

/-- Counterexample for C5's unconditional reading: at capacity the duplicate
insert does not grow the list count and does not leave an orphan.  With
capacity 1, `insert([0],1)` gives count 1; the duplicate `insert([0],2)`
first evicts the back node — which is `[0]`'s old node itself — and only
then pushes the fresh node (address 2, now the sentinel's sole successor),
so the count stays 1 instead of growing to 2. -/
theorem C5_at_capacity_duplicate_insert_counterexample :
    ((Cache.new 1).bind (fun c => insertSeq c [([0], 1)])).map Cache.count
        = some 1
    ∧ ((Cache.new 1).bind (fun c => insertSeq c [([0], 1), ([0], 2)])).map
        (fun c => (Cache.count c, c.map.map Prod.fst,
                   (c.list.heap.read 0).next))
        = some (1, [[0]], some 2) := by
  exact ⟨by decide, by decide⟩

/-- **C2** (eviction order).  Starting from a fresh cache of capacity `C > 0`
and inserting any list `kvs` of distinct keys in order with no intervening
`get`, the sequence succeeds and:
(1) the live key set is exactly the last `min |kvs| C` keys inserted — the
map's keys equal the final segment of the inserted keys, so the first
`|kvs| - C` keys (in particular the first-inserted key once `|kvs| = C + 1`)
are exactly the evicted ones;
(2) `count()` is `min |kvs| C`;
(3) `get` on every evicted key returns `none` without changing the cache;
(4) `get` on every surviving key hits and returns the value stored for it.
With `|kvs| = C + 1` this gives the C+1 clause of the claim, and with
`|kvs| = C + 2` the C+2 clause (live set = the last C keys). -/
theorem C2_eviction_evicts_oldest_keys {T : Type} (C : Nat) (hC : 0 < C)
    (kvs : List (CacheKey × T)) (hnd : (kvs.map Prod.fst).Nodup)
    (st0 : Cache T) (h0 : Cache.new C = some st0) :
    ∃ st : Cache T, insertSeq st0 kvs = some st
      ∧ st.map.map Prod.fst = (kvs.map Prod.fst).drop (kvs.length - C)
      ∧ Cache.count st = min kvs.length C
      ∧ (∀ k2 ∈ (kvs.map Prod.fst).take (kvs.length - C),
          Cache.get st k2 = some (st, none))
      ∧ (∀ j : Nat, kvs.length - C ≤ j → ∀ kv : CacheKey × T,
          kvs[j]? = some kv →
          ∃ st' : Cache T, Cache.get st kv.1 = some (st', some kv.2)) := by
  obtain ⟨st, hseq, hinv⟩ := insertSeq_inv C hC kvs hnd st0 h0
  obtain ⟨_, hcount, hmap, hshape⟩ := hinv
  have hs : kvs.length - min kvs.length C = kvs.length - C := by omega
  have hkeys : st.map.map Prod.fst = (kvs.map Prod.fst).drop (kvs.length - C) := by
    rw [hmap, tagFrom_map_fst, List.map_drop, hs]
  refine ⟨st, hseq, hkeys, ?_, ?_, ?_⟩
  · show st.list.lcount = min kvs.length C
    simpa only [LRUList.lcount] using hcount
  · intro k2 hk2
    have hdisj := List.disjoint_take_drop (l := kvs.map Prod.fst) hnd
      (le_refl (kvs.length - C))
    have hnotin : k2 ∉ st.map.map Prod.fst := by
      rw [hkeys]
      exact fun hmem => hdisj hk2 hmem
    unfold Cache.get
    rw [mapGet_eq_none_of_not_mem st.map k2 hnotin]
  · intro j hj kv hkv
    obtain ⟨k2, v2⟩ := kv
    obtain ⟨hjlen, -⟩ := List.getElem?_eq_some.mp hkv
    have hsj : kvs.length - min kvs.length C ≤ j := by omega
    have hdropj :
        (kvs.drop (kvs.length - min kvs.length C))[j -
          (kvs.length - min kvs.length C)]? = some (k2, v2) := by
      rw [List.getElem?_drop]
      have he : kvs.length - min kvs.length C
          + (j - (kvs.length - min kvs.length C)) = j := by omega
      rw [he, hkv]
    have hndd :
        ((kvs.drop (kvs.length - min kvs.length C)).map Prod.fst).Nodup := by
      rw [List.map_drop]
      exact List.Nodup.sublist (List.drop_sublist _ _) hnd
    have hmget : mapGet st.map k2 = some (v2, j + 1) := by
      rw [hmap]
      have hm := mapGet_tagFrom_of_getElem _ k2 v2
        (kvs.length - min kvs.length C) (j - (kvs.length - min kvs.length C))
        hndd hdropj
      have he2 : kvs.length - min kvs.length C
          + (j - (kvs.length - min kvs.length C)) + 1 = j + 1 := by omega
      rw [he2] at hm
      exact hm
    obtain ⟨hL, hn0, hp0, hnodes⟩ := hshape
    have hlen0 : ¬ (kvs.length = 0) := by omega
    rw [if_neg hlen0] at hn0 hp0
    have hnode := hnodes (j + 1) (by omega) (by omega)
    have hhp : ((st.list.heap.read 0).prev).isSome = true := by
      rw [hp0]; rfl
    by_cases hend : j + 1 = kvs.length
    · have hprev : (st.list.heap.read (j + 1)).prev = some 0 := by
        rw [hnode.2.1, if_pos hend]
      have hpn : (st.list.heap.read 0).next = some (j + 1) := by
        rw [hn0, hend]
      obtain ⟨st', hg, -⟩ :=
        Cache.get_hit_spec st k2 v2 (j + 1) 0 hmget (by omega) hprev hpn hhp
      exact ⟨st', hg⟩
    · have hprev : (st.list.heap.read (j + 1)).prev = some (j + 2) := by
        rw [hnode.2.1, if_neg hend]
      have hnode2 := hnodes (j + 2) (by omega) (by omega)
      have hpn : (st.list.heap.read (j + 2)).next = some (j + 1) := by
        rw [hnode2.1, if_neg (by omega)]
        have he3 : j + 2 - 1 = j + 1 := by omega
        rw [he3]
      obtain ⟨st', hg, -⟩ :=
        Cache.get_hit_spec st k2 v2 (j + 1) (j + 2) hmget (by omega) hprev hpn
          hhp
      exact ⟨st', hg⟩

/-- Witness for C2: the spec's Scenario A — capacity 3, keys
`[1],[2],[3],[4],[5]` inserted in order; the live keys are `[3],[4],[5]`,
the count is 3, `get` misses on the evicted keys `[1]` and `[2]`, and `get`
hits on the surviving key `[3]`, returning its stored value 30. -/
theorem C2_eviction_evicts_oldest_keys_witness :
    ∃ st : Cache Nat,
      insertSeq cacheW [([1], 10), ([2], 20), ([3], 30), ([4], 40), ([5], 50)]
        = some st
      ∧ st.map.map Prod.fst = [[3], [4], [5]]
      ∧ Cache.count st = 3
      ∧ Cache.get st [1] = some (st, none)
      ∧ Cache.get st [2] = some (st, none)
      ∧ (∃ st' : Cache Nat, Cache.get st [3] = some (st', some 30)) := by
  obtain ⟨st, h1, h2, h3, h4, h5⟩ :=
    C2_eviction_evicts_oldest_keys 3 (by decide)
      [([1], 10), ([2], 20), ([3], 30), ([4], 40), ([5], 50)] (by decide)
      cacheW (by decide)
  exact ⟨st, h1, by simpa using h2, by simpa using h3,
    h4 [1] (by decide), h4 [2] (by decide), h5 2 (by decide) ([3], 30)
      (by decide)⟩

end LevelDB
